import Mathlib

/-!
Verification of the monomial-ordering core of `PolynomialOrdering`
(`src/main.py`).

The program compares multivariate monomials, represented as exponent
vectors, under three orders — lexicographic, graded lexicographic and
graded reverse lexicographic — each parameterised by a precedence list
`P` of variable indices, and reorders a collection of terms by a
rank-counting positional sort.

Shallow embedding conventions:
* exponent vectors are `List Int` (Python integers), precedence lists are
  `List Nat` (variable indices);
* Python's `M[p]` is modelled by `List.getD M p 0`; every statement below
  concerns in-range indices, where the two agree;
* the `None`-initialised output array of the `determine_by_*` functions is
  a `List (Option (List Int))`, with `none` for a never-written slot;
* Python's `for i in range(n)` loops become structural recursion or folds
  over `List.range n`.
-/

/-- Embedding of `compare_by_lex` (src/main.py lines 6-20): walk the
precedence list `P` in order; at the first index where the two exponent
vectors differ return `-1` (first smaller) or `1` (first larger);
return `0` if no consulted coordinate differs. -/
def compare_by_lex (M1 M2 : List Int) : List Nat → Int
  | [] => 0
  | p :: ps =>
    if M1.getD p 0 < M2.getD p 0 then -1
    else if M1.getD p 0 > M2.getD p 0 then 1
    else compare_by_lex M1 M2 ps

/-- Embedding of `compare_by_glex` (src/main.py lines 22-39): compare
total degrees (sums of the full vectors) first, then fall back to
`compare_by_lex`. -/
def compare_by_glex (M1 M2 : List Int) (P : List Nat) : Int :=
  if M1.sum < M2.sum then -1
  else if M1.sum > M2.sum then 1
  else compare_by_lex M1 M2 P

/-- The tie-break loop of `compare_by_grevlex` (src/main.py lines 58-63),
parameterised by the list of indices it visits in visiting order: at the
first index where the vectors differ the comparison is inverted
(`-1` when the first vector's exponent is larger). -/
def revlex_pass (M1 M2 : List Int) : List Nat → Int
  | [] => 0
  | p :: ps =>
    if M1.getD p 0 > M2.getD p 0 then -1
    else if M1.getD p 0 < M2.getD p 0 then 1
    else revlex_pass M1 M2 ps

/-- Embedding of `compare_by_grevlex` (src/main.py lines 41-63): compare
total degrees first; on a tie run the inverted comparison over `P` in
reverse order (`for i in range(len(P)-1, -1, -1)` visits
`P[len-1], …, P[0]`, i.e. the elements of `P.reverse`). -/
def compare_by_grevlex (M1 M2 : List Int) (P : List Nat) : Int :=
  if M1.sum < M2.sum then -1
  else if M1.sum > M2.sum then 1
  else revlex_pass M1 M2 P.reverse

/-- The count computed for index `i` by the double loop of each
`determine_by_*` function (src/main.py lines 81-85): the number of
indices `j` in `range n` with `cmp(Terms[i], Terms[j], P) < 0`, i.e. the
number of terms strictly greater than `Terms[i]` under the comparator. -/
def rank_count (cmp : List Int → List Int → List Nat → Int)
    (Terms : List (List Int)) (P : List Nat) (i : Nat) : Nat :=
  (List.range Terms.length).countP
    (fun j => decide (cmp (Terms.getD i []) (Terms.getD j []) P < 0))

/-- The placement loop shared by the `determine_by_*` functions
(src/main.py lines 88-89): starting from an array of `n` unfilled (`None`)
slots, write `Terms[i]` to slot `ranks i` for `i = 0, …, n-1`; a later
write to the same slot overwrites an earlier one, exactly as in Python. -/
def place_terms (Terms : List (List Int)) (ranks : Nat → Nat) :
    List (Option (List Int)) :=
  (List.range Terms.length).foldl
    (fun acc i => acc.set (ranks i) (some (Terms.getD i [])))
    (List.replicate Terms.length none)

/-- Embedding of `determine_by_lex` (src/main.py lines 65-91). -/
def determine_by_lex (Terms : List (List Int)) (Procedure : List Nat) :
    List (Option (List Int)) :=
  place_terms Terms (rank_count compare_by_lex Terms Procedure)

/-- Embedding of `determine_by_glex` (src/main.py lines 93-110). -/
def determine_by_glex (Terms : List (List Int)) (Procedure : List Nat) :
    List (Option (List Int)) :=
  place_terms Terms (rank_count compare_by_glex Terms Procedure)

/-- Embedding of `determine_by_grevlex` (src/main.py lines 112-129). -/
def determine_by_grevlex (Terms : List (List Int)) (Procedure : List Nat) :
    List (Option (List Int)) :=
  place_terms Terms (rank_count compare_by_grevlex Terms Procedure)

/-- Modelled from the spec (claim C2's notion of rank, which is not what
the code computes): the count of terms of the collection strictly less
than `Terms[i]` under the comparator. -/
def spec_rank_strictly_less (cmp : List Int → List Int → List Nat → Int)
    (Terms : List (List Int)) (P : List Nat) (i : Nat) : Nat :=
  (List.range Terms.length).countP
    (fun j => decide (cmp (Terms.getD j []) (Terms.getD i []) P < 0))

/-- The collection's monomials are pairwise distinct under the comparator:
distinct positions never compare equal. -/
def PairwiseDistinctUnder (cmp : List Int → List Int → List Nat → Int)
    (Terms : List (List Int)) (P : List Nat) : Prop :=
  ∀ i, ∀ _ : i < Terms.length, ∀ j, ∀ _ : j < Terms.length,
    i ≠ j → cmp (Terms.getD i []) (Terms.getD j []) P ≠ 0

instance (cmp : List Int → List Int → List Nat → Int)
    (Terms : List (List Int)) (P : List Nat) :
    Decidable (PairwiseDistinctUnder cmp Terms P) := by
  unfold PairwiseDistinctUnder
  exact Nat.decidableBallLT _ _

/-- Every adjacent pair of filled slots of the output is non-increasing
under the comparator (`cmp out[k] out[k+1] P ≥ 0`). -/
def DescendingAdjacent (cmp : List Int → List Int → List Nat → Int)
    (out : List (Option (List Int))) (P : List Nat) : Prop :=
  ∀ k a b, out.getD k none = some a → out.getD (k + 1) none = some b →
    0 ≤ cmp a b P

/-! ## Comparator lemmas -/

theorem compare_by_lex_antisym (M1 M2 : List Int) (P : List Nat) :
    compare_by_lex M1 M2 P = -(compare_by_lex M2 M1 P) := by
  induction P with
  | nil => simp [compare_by_lex]
  | cons p ps ih =>
    simp only [compare_by_lex, gt_iff_lt]
    split_ifs <;> omega

theorem compare_by_lex_self (M : List Int) (P : List Nat) :
    compare_by_lex M M P = 0 := by
  have h := compare_by_lex_antisym M M P
  omega

theorem compare_by_lex_trans_neg (M1 M2 M3 : List Int) (P : List Nat)
    (h12 : compare_by_lex M1 M2 P < 0) (h23 : compare_by_lex M2 M3 P < 0) :
    compare_by_lex M1 M3 P < 0 := by
  induction P with
  | nil => simp [compare_by_lex] at h12
  | cons p ps ih =>
    simp only [compare_by_lex, gt_iff_lt] at h12 h23 ⊢
    split_ifs at h12 h23 ⊢ <;> omega

theorem revlex_pass_antisym (M1 M2 : List Int) (L : List Nat) :
    revlex_pass M1 M2 L = -(revlex_pass M2 M1 L) := by
  induction L with
  | nil => simp [revlex_pass]
  | cons p ps ih =>
    simp only [revlex_pass, gt_iff_lt]
    split_ifs <;> omega

theorem revlex_pass_trans_neg (M1 M2 M3 : List Int) (L : List Nat)
    (h12 : revlex_pass M1 M2 L < 0) (h23 : revlex_pass M2 M3 L < 0) :
    revlex_pass M1 M3 L < 0 := by
  induction L with
  | nil => simp [revlex_pass] at h12
  | cons p ps ih =>
    simp only [revlex_pass, gt_iff_lt] at h12 h23 ⊢
    split_ifs at h12 h23 ⊢ <;> omega

theorem compare_by_glex_antisym (M1 M2 : List Int) (P : List Nat) :
    compare_by_glex M1 M2 P = -(compare_by_glex M2 M1 P) := by
  unfold compare_by_glex
  split_ifs <;> first | omega | exact compare_by_lex_antisym M1 M2 P

theorem compare_by_glex_trans_neg (M1 M2 M3 : List Int) (P : List Nat)
    (h12 : compare_by_glex M1 M2 P < 0) (h23 : compare_by_glex M2 M3 P < 0) :
    compare_by_glex M1 M3 P < 0 := by
  unfold compare_by_glex at h12 h23 ⊢
  split_ifs at h12 h23 ⊢ <;>
    first | omega | exact compare_by_lex_trans_neg M1 M2 M3 P h12 h23

theorem compare_by_grevlex_antisym (M1 M2 : List Int) (P : List Nat) :
    compare_by_grevlex M1 M2 P = -(compare_by_grevlex M2 M1 P) := by
  unfold compare_by_grevlex
  split_ifs <;> first | omega | exact revlex_pass_antisym M1 M2 P.reverse

theorem compare_by_grevlex_trans_neg (M1 M2 M3 : List Int) (P : List Nat)
    (h12 : compare_by_grevlex M1 M2 P < 0)
    (h23 : compare_by_grevlex M2 M3 P < 0) :
    compare_by_grevlex M1 M3 P < 0 := by
  unfold compare_by_grevlex at h12 h23 ⊢
  split_ifs at h12 h23 ⊢ <;>
    first | omega | exact revlex_pass_trans_neg M1 M2 M3 P.reverse h12 h23

theorem compare_by_lex_eq_zero_iff (M1 M2 : List Int) (P : List Nat) :
    compare_by_lex M1 M2 P = 0 ↔ ∀ p ∈ P, M1.getD p 0 = M2.getD p 0 := by
  induction P with
  | nil => simp [compare_by_lex]
  | cons p ps ih =>
    simp only [compare_by_lex, gt_iff_lt, List.mem_cons, forall_eq_or_imp]
    split_ifs with h1 h2
    · constructor
      · intro h; exact absurd h (by decide)
      · rintro ⟨he, -⟩; omega
    · constructor
      · intro h; exact absurd h (by decide)
      · rintro ⟨he, -⟩; omega
    · rw [ih]
      constructor
      · intro h; exact ⟨by omega, h⟩
      · rintro ⟨-, h⟩; exact h

/-! ## Counting lemmas -/

theorem countP_lt_of_strict {α : Type} (p q : α → Bool) :
    ∀ L : List α, (∀ x ∈ L, q x = true → p x = true) →
      ∀ x0, x0 ∈ L → p x0 = true → q x0 = false →
      L.countP q < L.countP p := by
  intro L
  induction L with
  | nil => intro _ x0 hx0; cases hx0
  | cons a L ih =>
    intro hsub x0 hx0 hp hq
    rw [List.countP_cons, List.countP_cons]
    rcases List.mem_cons.mp hx0 with rfl | hx0L
    · have hmono : L.countP q ≤ L.countP p :=
        List.countP_mono_left (fun x hx => hsub x (List.mem_cons_of_mem _ hx))
      rw [if_pos hp, if_neg (by rw [hq]; exact Bool.false_ne_true)]
      omega
    · have hlt := ih (fun x hx => hsub x (List.mem_cons_of_mem _ hx)) x0 hx0L hp hq
      have hle : (if q a = true then 1 else 0) ≤ (if p a = true then 1 else 0) := by
        by_cases h : q a = true
        · rw [if_pos h, if_pos (hsub a (List.mem_cons_self a L) h)]
        · rw [if_neg h]; split <;> omega
      omega

theorem countP_lt_length_of_false {α : Type} (q : α → Bool) (L : List α)
    (x0 : α) (hx0 : x0 ∈ L) (hq : q x0 = false) :
    L.countP q < L.length := by
  have h := countP_lt_of_strict (fun _ => true) q L (fun _ _ _ => rfl) x0 hx0 rfl hq
  simpa [List.countP_true] using h

/-! ## Lemmas about the placement fold -/

theorem foldl_set_length {α : Type} (r : Nat → Nat) (f : Nat → α) :
    ∀ (L : List Nat) (acc : List α),
      (L.foldl (fun a k => a.set (r k) (f k)) acc).length = acc.length := by
  intro L
  induction L with
  | nil => intro acc; rfl
  | cons k L ih => intro acc; rw [List.foldl_cons, ih, List.length_set]

theorem foldl_set_getD_not_written {α : Type} (r : Nat → Nat) (f : Nat → α)
    (d : α) (p : Nat) :
    ∀ L : List Nat, (∀ k ∈ L, r k ≠ p) → ∀ acc : List α,
      (L.foldl (fun a k => a.set (r k) (f k)) acc).getD p d = acc.getD p d := by
  intro L
  induction L with
  | nil => intro _ acc; rfl
  | cons k L ih =>
    intro hp acc
    rw [List.foldl_cons, ih (fun j hj => hp j (List.mem_cons_of_mem _ hj))]
    rw [List.getD_eq_getElem?_getD, List.getD_eq_getElem?_getD,
      List.getElem?_set_ne (hp k (List.mem_cons_self k L))]

theorem foldl_set_getD_written {α : Type} (r : Nat → Nat) (f : Nat → α)
    (d : α) :
    ∀ L : List Nat, L.Nodup →
      (∀ i ∈ L, ∀ j ∈ L, r i = r j → i = j) →
      ∀ acc : List α, (∀ i ∈ L, r i < acc.length) →
      ∀ i ∈ L,
        (L.foldl (fun a k => a.set (r k) (f k)) acc).getD (r i) d = f i := by
  intro L
  induction L with
  | nil => intro _ _ _ _ i hi; cases hi
  | cons k L ih =>
    intro hnd hinj acc hlt i hi
    obtain ⟨hkL, hndL⟩ := List.nodup_cons.mp hnd
    rw [List.foldl_cons]
    rcases List.mem_cons.mp hi with rfl | hiL
    · have hlater : ∀ j ∈ L, r j ≠ r i := by
        intro j hj hrj
        exact hkL (hinj j (List.mem_cons_of_mem _ hj) i (List.mem_cons_self i L)
          hrj ▸ hj)
      rw [foldl_set_getD_not_written r f d (r i) L hlater]
      rw [List.getD_eq_getElem?_getD,
        List.getElem?_set_self (hlt i (List.mem_cons_self i L)), Option.getD_some]
    · exact ih hndL
        (fun a ha b hb => hinj a (List.mem_cons_of_mem _ ha) b
          (List.mem_cons_of_mem _ hb))
        _
        (fun j hj => by
          rw [List.length_set]; exact hlt j (List.mem_cons_of_mem _ hj))
        i hiL

theorem foldl_set_getD_source {α : Type} (r : Nat → Nat) (f : Nat → α)
    (d : α) :
    ∀ (L : List Nat) (acc : List α) (p : Nat),
      (L.foldl (fun a k => a.set (r k) (f k)) acc).getD p d = acc.getD p d ∨
      ∃ i ∈ L, r i = p ∧
        (L.foldl (fun a k => a.set (r k) (f k)) acc).getD p d = f i := by
  intro L
  induction L with
  | nil => intro acc p; exact Or.inl rfl
  | cons k L ih =>
    intro acc p
    rw [List.foldl_cons]
    rcases ih (acc.set (r k) (f k)) p with h | ⟨i, hiL, hri, hval⟩
    · by_cases hk : r k = p
      · by_cases hplen : p < acc.length
        · refine Or.inr ⟨k, List.mem_cons_self k L, hk, ?_⟩
          subst hk
          rw [h, List.getD_eq_getElem?_getD, List.getElem?_set_self hplen,
            Option.getD_some]
        · left
          rw [h, List.set_eq_of_length_le (by omega)]
      · left
        rw [h, List.getD_eq_getElem?_getD, List.getElem?_set_ne hk,
          ← List.getD_eq_getElem?_getD]
    · exact Or.inr ⟨i, List.mem_cons_of_mem _ hiL, hri, hval⟩

theorem getD_replicate_none {α : Type} (n p : Nat) :
    (List.replicate n (none : Option α)).getD p none = none := by
  rw [List.getD_eq_getElem?_getD, List.getElem?_replicate]
  split <;> rfl

/-! ## Rank-count lemmas

The comparator-independent facts below are stated for any comparator
`cmp` that is antisymmetric (`cmp A B P = -(cmp B A P)`) and whose
strict part is transitive; the three comparators of the program satisfy
both, as proved above. -/

theorem cmp_self_eq_zero (cmp : List Int → List Int → List Nat → Int)
    (hanti : ∀ A B P, cmp A B P = -(cmp B A P)) (M : List Int)
    (P : List Nat) : cmp M M P = 0 := by
  have h := hanti M M P
  omega

theorem rank_count_lt_of_cmp_neg (cmp : List Int → List Int → List Nat → Int)
    (hanti : ∀ A B P, cmp A B P = -(cmp B A P))
    (htrans : ∀ A B C P, cmp A B P < 0 → cmp B C P < 0 → cmp A C P < 0)
    (Terms : List (List Int)) (P : List Nat) (i j : Nat)
    (hj : j < Terms.length)
    (hij : cmp (Terms.getD i []) (Terms.getD j []) P < 0) :
    rank_count cmp Terms P j < rank_count cmp Terms P i := by
  unfold rank_count
  apply countP_lt_of_strict
    (fun k => decide (cmp (Terms.getD i []) (Terms.getD k []) P < 0))
    (fun k => decide (cmp (Terms.getD j []) (Terms.getD k []) P < 0))
    (List.range Terms.length) ?subset j (List.mem_range.mpr hj) ?atj ?atjj
  case subset =>
    intro k _ hqk
    rw [decide_eq_true_eq] at hqk ⊢
    exact htrans _ _ _ _ hij hqk
  case atj =>
    rw [decide_eq_true_eq]
    exact hij
  case atjj =>
    rw [decide_eq_false_iff_not]
    rw [cmp_self_eq_zero cmp hanti]
    omega

theorem rank_count_lt_length (cmp : List Int → List Int → List Nat → Int)
    (hanti : ∀ A B P, cmp A B P = -(cmp B A P))
    (Terms : List (List Int)) (P : List Nat) (i : Nat)
    (hi : i < Terms.length) :
    rank_count cmp Terms P i < Terms.length := by
  unfold rank_count
  have h := countP_lt_length_of_false
    (fun k => decide (cmp (Terms.getD i []) (Terms.getD k []) P < 0))
    (List.range Terms.length) i (List.mem_range.mpr hi)
    (by rw [decide_eq_false_iff_not, cmp_self_eq_zero cmp hanti]; omega)
  simpa [List.length_range] using h

theorem rank_count_injective (cmp : List Int → List Int → List Nat → Int)
    (hanti : ∀ A B P, cmp A B P = -(cmp B A P))
    (htrans : ∀ A B C P, cmp A B P < 0 → cmp B C P < 0 → cmp A C P < 0)
    (Terms : List (List Int)) (P : List Nat)
    (hdist : PairwiseDistinctUnder cmp Terms P)
    (i : Nat) (hi : i < Terms.length) (j : Nat) (hj : j < Terms.length)
    (heq : rank_count cmp Terms P i = rank_count cmp Terms P j) : i = j := by
  by_contra hne
  have hnz := hdist i hi j hj hne
  rcases lt_trichotomy (cmp (Terms.getD i []) (Terms.getD j []) P) 0 with h | h | h
  · have := rank_count_lt_of_cmp_neg cmp hanti htrans Terms P i j hj h
    omega
  · exact hnz h
  · have hji : cmp (Terms.getD j []) (Terms.getD i []) P < 0 := by
      have := hanti (Terms.getD i []) (Terms.getD j []) P
      omega
    have := rank_count_lt_of_cmp_neg cmp hanti htrans Terms P j i hi hji
    omega

/-! ## Behaviour of the placement loop -/

theorem place_terms_length (Terms : List (List Int)) (ranks : Nat → Nat) :
    (place_terms Terms ranks).length = Terms.length := by
  unfold place_terms
  rw [foldl_set_length, List.length_replicate]

theorem place_terms_getD_source (Terms : List (List Int)) (ranks : Nat → Nat)
    (p : Nat) (v : List Int)
    (hv : (place_terms Terms ranks).getD p none = some v) :
    ∃ i < Terms.length, ranks i = p ∧ v = Terms.getD i [] := by
  unfold place_terms at hv
  rcases foldl_set_getD_source ranks (fun i => some (Terms.getD i [])) none
      (List.range Terms.length) (List.replicate Terms.length none) p with
    h | ⟨i, hiL, hri, hval⟩
  · rw [h, getD_replicate_none] at hv
    cases hv
  · rw [hval] at hv
    exact ⟨i, List.mem_range.mp hiL, hri, (Option.some_inj.mp hv).symm⟩

theorem place_terms_at_rank (cmp : List Int → List Int → List Nat → Int)
    (hanti : ∀ A B P, cmp A B P = -(cmp B A P))
    (htrans : ∀ A B C P, cmp A B P < 0 → cmp B C P < 0 → cmp A C P < 0)
    (Terms : List (List Int)) (P : List Nat)
    (hdist : PairwiseDistinctUnder cmp Terms P)
    (i : Nat) (hi : i < Terms.length) :
    (place_terms Terms (rank_count cmp Terms P)).getD
      (rank_count cmp Terms P i) none = some (Terms.getD i []) := by
  unfold place_terms
  exact foldl_set_getD_written (rank_count cmp Terms P)
    (fun k => some (Terms.getD k [])) none (List.range Terms.length)
    (List.nodup_range Terms.length)
    (fun a ha b hb hab =>
      rank_count_injective cmp hanti htrans Terms P hdist a
        (List.mem_range.mp ha) b (List.mem_range.mp hb) hab)
    (List.replicate Terms.length none)
    (fun j hj => by
      rw [List.length_replicate]
      exact rank_count_lt_length cmp hanti Terms P j (List.mem_range.mp hj))
    i (List.mem_range.mpr hi)

theorem place_terms_descending (cmp : List Int → List Int → List Nat → Int)
    (hanti : ∀ A B P, cmp A B P = -(cmp B A P))
    (htrans : ∀ A B C P, cmp A B P < 0 → cmp B C P < 0 → cmp A C P < 0)
    (Terms : List (List Int)) (P : List Nat) :
    DescendingAdjacent cmp (place_terms Terms (rank_count cmp Terms P)) P := by
  intro k a b hka hkb
  obtain ⟨i, hi, hri, rfl⟩ := place_terms_getD_source Terms _ k a hka
  obtain ⟨j, hj, hrj, rfl⟩ := place_terms_getD_source Terms _ (k + 1) b hkb
  by_contra hneg
  have hij : cmp (Terms.getD i []) (Terms.getD j []) P < 0 := by omega
  have := rank_count_lt_of_cmp_neg cmp hanti htrans Terms P i j hj hij
  omega

theorem terms_nodup_of_pairwise_distinct
    (cmp : List Int → List Int → List Nat → Int)
    (hanti : ∀ A B P, cmp A B P = -(cmp B A P))
    (Terms : List (List Int)) (P : List Nat)
    (hdist : PairwiseDistinctUnder cmp Terms P) : Terms.Nodup := by
  rw [List.nodup_iff_injective_get]
  intro i j hget
  rcases i with ⟨i, hi⟩
  rcases j with ⟨j, hj⟩
  by_contra hne
  have hne' : i ≠ j := by simpa using hne
  apply hdist i hi j hj hne'
  have hgi : Terms.getD i [] = Terms.get ⟨i, hi⟩ := by
    rw [List.getD_eq_getElem Terms [] hi]; rfl
  have hgj : Terms.getD j [] = Terms.get ⟨j, hj⟩ := by
    rw [List.getD_eq_getElem Terms [] hj]; rfl
  rw [hgi, hgj, hget, cmp_self_eq_zero cmp hanti]

theorem place_terms_perm (cmp : List Int → List Int → List Nat → Int)
    (hanti : ∀ A B P, cmp A B P = -(cmp B A P))
    (htrans : ∀ A B C P, cmp A B P < 0 → cmp B C P < 0 → cmp A C P < 0)
    (Terms : List (List Int)) (P : List Nat)
    (hdist : PairwiseDistinctUnder cmp Terms P) :
    ((place_terms Terms (rank_count cmp Terms P)).filterMap id).Perm Terms := by
  have hnodup := terms_nodup_of_pairwise_distinct cmp hanti Terms P hdist
  have hsub : Terms ⊆ (place_terms Terms (rank_count cmp Terms P)).filterMap id := by
    intro x hx
    obtain ⟨i, hi, hxi⟩ := List.mem_iff_getElem.mp hx
    have hxd : Terms.getD i [] = x := by rw [List.getD_eq_getElem Terms [] hi, hxi]
    have hplace := place_terms_at_rank cmp hanti htrans Terms P hdist i hi
    rw [hxd] at hplace
    rw [List.getD_eq_getElem?_getD] at hplace
    have hmem : some x ∈ place_terms Terms (rank_count cmp Terms P) := by
      rcases hsome : (place_terms Terms (rank_count cmp Terms P))[
          rank_count cmp Terms P i]? with _ | w
      · rw [hsome] at hplace; cases hplace
      · rw [hsome] at hplace
        rw [Option.getD_some] at hplace
        obtain ⟨hlt, hw⟩ := List.getElem?_eq_some.mp hsome
        rw [hplace] at hw
        exact hw ▸ List.getElem_mem hlt
    exact List.mem_filterMap.mpr ⟨some x, hmem, rfl⟩
  have hlen : Terms.length ≥
      ((place_terms Terms (rank_count cmp Terms P)).filterMap id).length := by
    calc ((place_terms Terms (rank_count cmp Terms P)).filterMap id).length
        ≤ (place_terms Terms (rank_count cmp Terms P)).length :=
          List.length_filterMap_le _ _
      _ = Terms.length := place_terms_length Terms _
  exact ((List.subperm_of_subset hnodup hsub).perm_of_length_le hlen).symm

/-! ## Claims -/

/-- C1 counterexample: on the pairwise-distinct collection `[[0], [1]]` with
`P = [0]`, `determine_by_lex` returns `[some [1], some [0]]`, whose adjacent
pair compares `+1`, not `≤ 0`: the output is descending, so the claim that
adjacent output pairs satisfy `compare_by_lex(out[i], out[i+1], P) ≤ 0` is
false. -/
theorem claim1_counterexample :
    PairwiseDistinctUnder compare_by_lex [[0], [1]] [0] ∧
    determine_by_lex [[0], [1]] [0] = [some [1], some [0]] ∧
    compare_by_lex [1] [0] [0] = 1 :=
  ⟨by decide, by decide, by decide⟩

/-- C1 (amended): for every term collection whose monomials are pairwise
distinct under the corresponding comparator and every precedence list `P`,
the output of each `determine_by_*` is a permutation of the input whose
every adjacent pair of slots satisfies `compare_by_*(out[i], out[i+1], P)
≥ 0` — descending order, the opposite of the claimed `≤ 0`. -/
theorem claim1_determine_perm_and_descending
    (Terms : List (List Int)) (P : List Nat) :
    (PairwiseDistinctUnder compare_by_lex Terms P →
      ((determine_by_lex Terms P).filterMap id).Perm Terms ∧
      DescendingAdjacent compare_by_lex (determine_by_lex Terms P) P) ∧
    (PairwiseDistinctUnder compare_by_glex Terms P →
      ((determine_by_glex Terms P).filterMap id).Perm Terms ∧
      DescendingAdjacent compare_by_glex (determine_by_glex Terms P) P) ∧
    (PairwiseDistinctUnder compare_by_grevlex Terms P →
      ((determine_by_grevlex Terms P).filterMap id).Perm Terms ∧
      DescendingAdjacent compare_by_grevlex (determine_by_grevlex Terms P) P) :=
  ⟨fun h =>
    ⟨place_terms_perm compare_by_lex compare_by_lex_antisym
        compare_by_lex_trans_neg Terms P h,
      place_terms_descending compare_by_lex compare_by_lex_antisym
        compare_by_lex_trans_neg Terms P⟩,
   fun h =>
    ⟨place_terms_perm compare_by_glex compare_by_glex_antisym
        compare_by_glex_trans_neg Terms P h,
      place_terms_descending compare_by_glex compare_by_glex_antisym
        compare_by_glex_trans_neg Terms P⟩,
   fun h =>
    ⟨place_terms_perm compare_by_grevlex compare_by_grevlex_antisym
        compare_by_grevlex_trans_neg Terms P h,
      place_terms_descending compare_by_grevlex compare_by_grevlex_antisym
        compare_by_grevlex_trans_neg Terms P⟩⟩

/-- C1 witness: the amended claim instantiated at `Terms = [[0], [1]]`,
`P = [0]`. -/
theorem claim1_witness :
    (PairwiseDistinctUnder compare_by_lex [[0], [1]] [0] ∧
      ((determine_by_lex [[0], [1]] [0]).filterMap id).Perm [[0], [1]] ∧
      DescendingAdjacent compare_by_lex (determine_by_lex [[0], [1]] [0]) [0]) ∧
    (PairwiseDistinctUnder compare_by_glex [[0], [1]] [0] ∧
      ((determine_by_glex [[0], [1]] [0]).filterMap id).Perm [[0], [1]] ∧
      DescendingAdjacent compare_by_glex (determine_by_glex [[0], [1]] [0]) [0]) ∧
    (PairwiseDistinctUnder compare_by_grevlex [[0], [1]] [0] ∧
      ((determine_by_grevlex [[0], [1]] [0]).filterMap id).Perm [[0], [1]] ∧
      DescendingAdjacent compare_by_grevlex
        (determine_by_grevlex [[0], [1]] [0]) [0]) :=
  ⟨⟨by decide, (claim1_determine_perm_and_descending [[0], [1]] [0]).1 (by decide)⟩,
   ⟨by decide, (claim1_determine_perm_and_descending [[0], [1]] [0]).2.1 (by decide)⟩,
   ⟨by decide, (claim1_determine_perm_and_descending [[0], [1]] [0]).2.2 (by decide)⟩⟩

/-- C2 counterexample: in `[[0], [1]]` with `P = [0]`, the term `[0]` at
index 0 has zero terms strictly less than it, so the claim places it at
output position 0; the code instead writes `[1]` there (`[0]` ends at
position 1): the rank the code uses counts terms strictly greater, not
strictly less. -/
theorem claim2_counterexample :
    spec_rank_strictly_less compare_by_lex [[0], [1]] [0] 0 = 0 ∧
    (determine_by_lex [[0], [1]] [0]).getD 0 none = some [1] ∧
    (determine_by_lex [[0], [1]] [0]).getD 0 none ≠ some [0] :=
  ⟨by decide, by decide, by decide⟩

/-- C2 (amended): for every collection pairwise distinct under the
corresponding comparator, each `determine_by_*` places `Terms[i]` at the
output position equal to the count of terms strictly GREATER than it
(the code counts `j` with `compare(Terms[i], Terms[j], P) < 0`); with
tied terms the placement additionally collides (claim C8). -/
theorem claim2_placed_at_greater_count
    (Terms : List (List Int)) (P : List Nat) (i : Nat)
    (hi : i < Terms.length) :
    (PairwiseDistinctUnder compare_by_lex Terms P →
      (determine_by_lex Terms P).getD
        (rank_count compare_by_lex Terms P i) none = some (Terms.getD i [])) ∧
    (PairwiseDistinctUnder compare_by_glex Terms P →
      (determine_by_glex Terms P).getD
        (rank_count compare_by_glex Terms P i) none = some (Terms.getD i [])) ∧
    (PairwiseDistinctUnder compare_by_grevlex Terms P →
      (determine_by_grevlex Terms P).getD
        (rank_count compare_by_grevlex Terms P i) none = some (Terms.getD i [])) :=
  ⟨fun h => place_terms_at_rank compare_by_lex compare_by_lex_antisym
      compare_by_lex_trans_neg Terms P h i hi,
   fun h => place_terms_at_rank compare_by_glex compare_by_glex_antisym
      compare_by_glex_trans_neg Terms P h i hi,
   fun h => place_terms_at_rank compare_by_grevlex compare_by_grevlex_antisym
      compare_by_grevlex_trans_neg Terms P h i hi⟩

/-- C2 witness: the amended claim instantiated at `Terms = [[0], [1]]`,
`P = [0]`, `i = 0`. -/
theorem claim2_witness :
    (0 < ([[0], [1]] : List (List Int)).length ∧
      PairwiseDistinctUnder compare_by_lex [[0], [1]] [0]) ∧
    (determine_by_lex [[0], [1]] [0]).getD
      (rank_count compare_by_lex [[0], [1]] [0] 0) none = some [0] :=
  ⟨⟨by decide, by decide⟩,
    (claim2_placed_at_greater_count [[0], [1]] [0] 0 (by decide)).1 (by decide)⟩

/-- C3 counterexample: on Scenario A (`Terms = [[2,8,0],[5,1,4],[1,1,3],
[1,4,0]]`, `P = [2,1,0]`) the code returns `[[5,1,4],[1,1,3],[2,8,0],
[1,4,0]]`: `[5,1,4]` is first, not last, and `[1,4,0]` comes after
`[2,8,0]`, refuting the claimed ordering. -/
theorem claim3_counterexample :
    determine_by_lex [[2, 8, 0], [5, 1, 4], [1, 1, 3], [1, 4, 0]] [2, 1, 0] =
      [some [5, 1, 4], some [1, 1, 3], some [2, 8, 0], some [1, 4, 0]] ∧
    (determine_by_lex [[2, 8, 0], [5, 1, 4], [1, 1, 3], [1, 4, 0]]
        [2, 1, 0]).getD 3 none ≠ some [5, 1, 4] :=
  ⟨by decide, by decide⟩

/-- C3 (amended): on Scenario A, `determine_by_lex` returns the descending
lex order `[[5,1,4],[1,1,3],[2,8,0],[1,4,0]]`: `[5,1,4]` appears first and
`[2,8,0]`, `[5,1,4]` appear before `[1,4,0]`, the reverse of the claimed
placement. -/
theorem claim3_scenario_a_lex_output :
    determine_by_lex [[2, 8, 0], [5, 1, 4], [1, 1, 3], [1, 4, 0]] [2, 1, 0] =
      [some [5, 1, 4], some [1, 1, 3], some [2, 8, 0], some [1, 4, 0]] := by
  decide

/-- Helper for C4: the shared degree-comparison head of the graded
comparators equals the sign of the degree difference whenever the degrees
differ, whatever the tie-break value. -/
theorem graded_head_eq_sign (s1 s2 x : Int) (h : s1 ≠ s2) :
    (if s1 < s2 then -1 else if s1 > s2 then 1 else x) = (s1 - s2).sign := by
  rcases lt_trichotomy s1 s2 with h1 | h1 | h1
  · rw [if_pos h1,
      show (s1 - s2).sign = -1 from Int.sign_eq_neg_one_iff_neg.mpr (by omega)]
  · exact absurd h1 h
  · rw [if_neg (by omega), if_pos h1,
      show (s1 - s2).sign = 1 from Int.sign_eq_one_iff_pos.mpr (by omega)]

/-- C4: for all exponent vectors with different total degrees (sums of the
full vectors) and every precedence list `P`, `compare_by_glex` and
`compare_by_grevlex` both return the sign of `sum(M1) - sum(M2)`; `P` never
affects the result when the degrees differ. -/
theorem claim4_graded_degree_precedence (M1 M2 : List Int) (P : List Nat)
    (h : M1.sum ≠ M2.sum) :
    compare_by_glex M1 M2 P = (M1.sum - M2.sum).sign ∧
    compare_by_grevlex M1 M2 P = (M1.sum - M2.sum).sign :=
  ⟨graded_head_eq_sign M1.sum M2.sum (compare_by_lex M1 M2 P) h,
   graded_head_eq_sign M1.sum M2.sum (revlex_pass M1 M2 P.reverse) h⟩

/-- C4 witness: the claim instantiated at `M1 = [2]`, `M2 = [0, 1]`,
`P = [0]` (degrees 2 and 1). -/
theorem claim4_witness :
    ([2] : List Int).sum ≠ ([0, 1] : List Int).sum ∧
    compare_by_glex [2] [0, 1] [0] =
      (([2] : List Int).sum - ([0, 1] : List Int).sum).sign ∧
    compare_by_grevlex [2] [0, 1] [0] =
      (([2] : List Int).sum - ([0, 1] : List Int).sum).sign :=
  ⟨by decide, (claim4_graded_degree_precedence [2] [0, 1] [0] (by decide)).1,
    (claim4_graded_degree_precedence [2] [0, 1] [0] (by decide)).2⟩

/-- C5: each of the three comparators is antisymmetric
(`compare(A,B,P) = -compare(B,A,P)` for all vectors and precedence lists)
and maps equal arguments to `0`. -/
theorem claim5_antisym_and_refl (A B M : List Int) (P : List Nat) :
    compare_by_lex A B P = -(compare_by_lex B A P) ∧
    compare_by_glex A B P = -(compare_by_glex B A P) ∧
    compare_by_grevlex A B P = -(compare_by_grevlex B A P) ∧
    compare_by_lex M M P = 0 ∧
    compare_by_glex M M P = 0 ∧
    compare_by_grevlex M M P = 0 :=
  ⟨compare_by_lex_antisym A B P, compare_by_glex_antisym A B P,
   compare_by_grevlex_antisym A B P, compare_by_lex_self M P,
   cmp_self_eq_zero compare_by_glex compare_by_glex_antisym M P,
   cmp_self_eq_zero compare_by_grevlex compare_by_grevlex_antisym M P⟩

/-- C6: whenever the total degrees agree, `compare_by_glex` coincides with
`compare_by_lex`. -/
theorem claim6_glex_tie_is_lex (M1 M2 : List Int) (P : List Nat)
    (h : M1.sum = M2.sum) :
    compare_by_glex M1 M2 P = compare_by_lex M1 M2 P := by
  unfold compare_by_glex
  rw [if_neg (by omega), if_neg (by omega)]

/-- C6 witness: the claim instantiated at `M1 = [1, 0]`, `M2 = [0, 1]`,
`P = [0, 1]`. -/
theorem claim6_witness :
    ([1, 0] : List Int).sum = ([0, 1] : List Int).sum ∧
    compare_by_glex [1, 0] [0, 1] [0, 1] = compare_by_lex [1, 0] [0, 1] [0, 1] :=
  ⟨by decide, claim6_glex_tie_is_lex [1, 0] [0, 1] [0, 1] (by decide)⟩

/-- C7: for vectors of equal total degree whose exponent at the coordinate
indexed by the last entry of `P` is strictly greater in `M1`,
`compare_by_grevlex` returns `-1`: the per-coordinate comparison is
inverted and that coordinate is the first one the reverse-precedence
tie-break consults.  The claim additionally assumes the vectors differ
only at that coordinate; the theorem drops that assumption (which, jointly
with equal total degree, no pair of vectors can satisfy, as changing a
single coordinate changes the sum) and thus proves a strictly stronger
statement that subsumes the claim. -/
theorem claim7_grevlex_tiebreak_inversion (M1 M2 : List Int) (P : List Nat)
    (hne : P ≠ []) (hsum : M1.sum = M2.sum)
    (hgt : M2.getD (P.getLast hne) 0 < M1.getD (P.getLast hne) 0) :
    compare_by_grevlex M1 M2 P = -1 := by
  rcases List.eq_nil_or_concat P with rfl | ⟨Q, a, rfl⟩
  · exact absurd rfl hne
  · simp only [List.concat_eq_append] at hgt ⊢
    rw [List.getLast_concat] at hgt
    unfold compare_by_grevlex
    rw [if_neg (by omega), if_neg (by omega)]
    rw [show (Q ++ [a]).reverse = a :: Q.reverse by simp]
    simp only [revlex_pass, gt_iff_lt]
    rw [if_pos hgt]

/-- C7 witness: the claim instantiated at `M1 = [2, 0]`, `M2 = [1, 1]`,
`P = [1, 0]` (equal degree 2, last entry of `P` indexes coordinate 0,
where 2 > 1). -/
theorem claim7_witness :
    ([1, 0] : List Nat) ≠ [] ∧
    ([2, 0] : List Int).sum = ([1, 1] : List Int).sum ∧
    ([1, 1] : List Int).getD (([1, 0] : List Nat).getLast (by decide)) 0 <
      ([2, 0] : List Int).getD (([1, 0] : List Nat).getLast (by decide)) 0 ∧
    compare_by_grevlex [2, 0] [1, 1] [1, 0] = -1 :=
  ⟨by decide, by decide, by decide,
    claim7_grevlex_tiebreak_inversion [2, 0] [1, 1] [1, 0] (by decide)
      (by decide) (by decide)⟩

/-- C8: on `Terms = [[1, 0], [1, 0]]`, `P = [0, 1]`, both terms get rank 0
under all three comparators, so both are written to output slot 0: each
`determine_by_*` returns `[some [1, 0], none]` — one slot holds the
duplicated vector, the other stays unfilled. -/
theorem claim8_rank_collision :
    rank_count compare_by_lex [[1, 0], [1, 0]] [0, 1] 0 = 0 ∧
    rank_count compare_by_lex [[1, 0], [1, 0]] [0, 1] 1 = 0 ∧
    rank_count compare_by_glex [[1, 0], [1, 0]] [0, 1] 0 = 0 ∧
    rank_count compare_by_glex [[1, 0], [1, 0]] [0, 1] 1 = 0 ∧
    rank_count compare_by_grevlex [[1, 0], [1, 0]] [0, 1] 0 = 0 ∧
    rank_count compare_by_grevlex [[1, 0], [1, 0]] [0, 1] 1 = 0 ∧
    determine_by_lex [[1, 0], [1, 0]] [0, 1] = [some [1, 0], none] ∧
    determine_by_glex [[1, 0], [1, 0]] [0, 1] = [some [1, 0], none] ∧
    determine_by_grevlex [[1, 0], [1, 0]] [0, 1] = [some [1, 0], none] := by
  decide

/-- C9: for in-range precedence indices, `compare_by_lex` returns `0`
exactly when the two vectors agree at every coordinate listed in `P`; with
an empty `P` it returns `0` for every pair, since coordinates not listed in
`P` are never consulted. -/
theorem claim9_lex_zero_iff_consulted_equal (M1 M2 : List Int) (P : List Nat)
    (_hrange : ∀ p ∈ P, p < M1.length ∧ p < M2.length) :
    (compare_by_lex M1 M2 P = 0 ↔ ∀ p ∈ P, M1.getD p 0 = M2.getD p 0) ∧
    compare_by_lex M1 M2 [] = 0 :=
  ⟨compare_by_lex_eq_zero_iff M1 M2 P, rfl⟩

/-- C9 witness: the claim instantiated at `M1 = [1]`, `M2 = [2]`,
`P = [0]`. -/
theorem claim9_witness :
    (∀ p ∈ ([0] : List Nat), p < ([1] : List Int).length ∧
      p < ([2] : List Int).length) ∧
    ((compare_by_lex [1] [2] [0] = 0 ↔
      ∀ p ∈ ([0] : List Nat), ([1] : List Int).getD p 0 =
        ([2] : List Int).getD p 0) ∧
      compare_by_lex [1] [2] [] = 0) :=
  ⟨by decide, claim9_lex_zero_iff_consulted_equal [1] [2] [0] (by decide)⟩

/-- C10: for every input collection (empty, tied or duplicated monomials
included) and every precedence list, each `determine_by_*` returns a
sequence of the same length as the input whose every filled slot holds a
vector drawn from the input. -/
theorem claim10_length_and_membership (Terms : List (List Int))
    (P : List Nat) :
    ((determine_by_lex Terms P).length = Terms.length ∧
      ∀ k v, (determine_by_lex Terms P).getD k none = some v → v ∈ Terms) ∧
    ((determine_by_glex Terms P).length = Terms.length ∧
      ∀ k v, (determine_by_glex Terms P).getD k none = some v → v ∈ Terms) ∧
    ((determine_by_grevlex Terms P).length = Terms.length ∧
      ∀ k v, (determine_by_grevlex Terms P).getD k none = some v →
        v ∈ Terms) := by
  refine ⟨⟨place_terms_length Terms _, ?_⟩, ⟨place_terms_length Terms _, ?_⟩,
    ⟨place_terms_length Terms _, ?_⟩⟩ <;>
  · intro k v hv
    obtain ⟨i, hi, -, rfl⟩ := place_terms_getD_source Terms _ k v hv
    rw [List.getD_eq_getElem Terms [] hi]
    exact List.getElem_mem hi

/-- C10 witness: the membership part instantiated at
`Terms = [[1, 0], [1, 0]]`, `P = [0, 1]`, slot 0. -/
theorem claim10_witness :
    (determine_by_lex [[1, 0], [1, 0]] [0, 1]).getD 0 none = some [1, 0] ∧
    ([1, 0] : List Int) ∈ ([[1, 0], [1, 0]] : List (List Int)) :=
  ⟨by decide,
    (claim10_length_and_membership [[1, 0], [1, 0]] [0, 1]).1.2 0 [1, 0]
      (by decide)⟩
